import Mathlib

/-!
Verification of the working-directory status model (`app/src/models/status.ts`).

The development shallowly embeds the data model of the status module:
`AppFileStatus` (tagged classification of a changed file), the `FileChange`
family with its derived identity string, and `WorkingDirectoryStatus` with its
id-to-index map and tri-state `includeAll` flag.  The diff-selection
collaborator (`models/diff`) is outside the excerpt; it is represented
abstractly by its tri-state interface (`DiffSelectionOps`), exactly the
contract the status module consumes.
-/

set_option autoImplicit false

/-- The enum representation of a Git file change (`AppFileStatusKind`). -/
inductive AppFileStatusKind
  | New
  | Modified
  | Deleted
  | Copied
  | Renamed
  | Conflicted
  | Resolved
  deriving DecidableEq

/-- The string value of each `AppFileStatusKind` enum member, as declared in the
TypeScript enum (`New = 'New'`, ...). -/
def AppFileStatusKind.str : AppFileStatusKind → String
  | .New => "New"
  | .Modified => "Modified"
  | .Deleted => "Deleted"
  | .Copied => "Copied"
  | .Renamed => "Renamed"
  | .Conflicted => "Conflicted"
  | .Resolved => "Resolved"

/-- Modelled from the spec: `ConflictFileStatus` lives in `models/conflicts`,
which is not part of the excerpt.  The spec treats it as an opaque conflict
detail owned by the conflict-resolution collaborator, so a single opaque-value
type suffices for the claims. -/
inductive ConflictFileStatus
  | mk
  deriving DecidableEq

/-- The `AppFileStatus` tagged union: `PlainFileStatus` (New/Modified/Deleted),
`CopiedOrRenamedFileStatus` (carrying `oldPath`), `ConflictedFileStatus`
(carrying `conflictStatus`) and `ResolvedFileStatus`. -/
inductive AppFileStatus
  | New
  | Modified
  | Deleted
  | Copied (oldPath : String)
  | Renamed (oldPath : String)
  | Conflicted (conflictStatus : ConflictFileStatus)
  | Resolved
  deriving DecidableEq

/-- The `kind` discriminant of an `AppFileStatus` value. -/
def AppFileStatus.kind : AppFileStatus → AppFileStatusKind
  | .New => .New
  | .Modified => .Modified
  | .Deleted => .Deleted
  | .Copied _ => .Copied
  | .Renamed _ => .Renamed
  | .Conflicted _ => .Conflicted
  | .Resolved => .Resolved

/-- The `oldPath` payload of an `AppFileStatus`, present exactly on the
Renamed and Copied variants. -/
def AppFileStatus.oldPathOpt : AppFileStatus → Option String
  | .Copied oldPath => some oldPath
  | .Renamed oldPath => some oldPath
  | _ => none

/-- The id computed by the `FileChange` constructor: if `status.kind` is
`Renamed` or `Copied` then `kind + "+" + path + "+" + oldPath`, else
`kind + "+" + path`. -/
def fileChangeIdOf (path : String) (status : AppFileStatus) : String :=
  match status with
  | .Renamed oldPath =>
      AppFileStatusKind.Renamed.str ++ "+" ++ path ++ "+" ++ oldPath
  | .Copied oldPath =>
      AppFileStatusKind.Copied.str ++ "+" ++ path ++ "+" ++ oldPath
  | s => s.kind.str ++ "+" ++ path

/-- `FileChange`: a changed file identified by `path` and `status`.  The
TypeScript class stores a readonly `id` computed once in the constructor from
`path` and `status` alone, so the id is represented as the derived function
`FileChange.id` below. -/
structure FileChange where
  path : String
  status : AppFileStatus
  deriving DecidableEq

/-- The stored `id` of a constructed `FileChange`. -/
def FileChange.id (c : FileChange) : String :=
  fileChangeIdOf c.path c.status

/-- The tri-state selection type exposed by the diff-selection collaborator
(`DiffSelectionType` in `models/diff`). -/
inductive DiffSelectionType
  | All
  | Partial
  | None
  deriving DecidableEq

/-- Modelled from the spec: the diff-selection collaborator (`models/diff`,
not in the excerpt) is specified only through its interface: an opaque
immutable value exposing `getSelectionType()`, `withSelectAll()` and
`withSelectNone()`.  The status module is parametric in the selection
representation `σ` together with these three operations. -/
structure DiffSelectionOps (σ : Type) where
  getSelectionType : σ → DiffSelectionType
  withSelectAll : σ → σ
  withSelectNone : σ → σ

/-- Modelled from the spec: a minimal concrete diff selection whose state is
exactly its tri-state selection type; `withSelectAll` yields a fully selected
value and `withSelectNone` a fully deselected one, as the spec's interface
contract requires.  Used to instantiate the parametric theorems. -/
def simpleSelectionOps : DiffSelectionOps DiffSelectionType where
  getSelectionType := fun s => s
  withSelectAll := fun _ => DiffSelectionType.All
  withSelectNone := fun _ => DiffSelectionType.None

/-- `WorkingDirectoryFileChange`: extends `FileChange` with the per-file
diff selection. -/
structure WorkingDirectoryFileChange (σ : Type) where
  path : String
  status : AppFileStatus
  selection : σ
  deriving DecidableEq

/-- The `id` inherited from the `FileChange` base constructor
(`super(path, status)`). -/
def WorkingDirectoryFileChange.id {σ : Type}
    (f : WorkingDirectoryFileChange σ) : String :=
  fileChangeIdOf f.path f.status

/-- `withSelection`: a new `WorkingDirectoryFileChange` with the given diff
selection (`new WorkingDirectoryFileChange(this.path, this.status, selection)`). -/
def WorkingDirectoryFileChange.withSelection {σ : Type}
    (f : WorkingDirectoryFileChange σ) (selection : σ) :
    WorkingDirectoryFileChange σ :=
  { path := f.path, status := f.status, selection := selection }

/-- `withIncludeAll`: a new `WorkingDirectoryFileChange` whose selection is
`withSelectAll()` of the old one when `inc` is true, `withSelectNone()`
otherwise. -/
def WorkingDirectoryFileChange.withIncludeAll {σ : Type}
    (f : WorkingDirectoryFileChange σ) (ops : DiffSelectionOps σ) (inc : Bool) :
    WorkingDirectoryFileChange σ :=
  let newSelection :=
    if inc then ops.withSelectAll f.selection else ops.withSelectNone f.selection
  f.withSelection newSelection

/-- `CommittedFileChange`: extends `FileChange` with a `commitish`. -/
structure CommittedFileChange where
  path : String
  status : AppFileStatus
  commitish : String
  deriving DecidableEq

/-- The `id` inherited from the `FileChange` base constructor
(`super(path, status)`); the commitish plays no part in it. -/
def CommittedFileChange.id (c : CommittedFileChange) : String :=
  fileChangeIdOf c.path c.status

/-- Overwriting update of a string-keyed map, the semantics of
`Map.prototype.set`. -/
def mapSet (m : String → Option Nat) (k : String) (v : Nat) :
    String → Option Nat :=
  fun q => if q = k then some v else m q

/-- The id-to-index map built by the `WorkingDirectoryStatus` constructor:
`files.forEach((f, ix) => this.fileIxById.set(f.id, ix))`.  Later entries
overwrite earlier ones with the same id. -/
def buildFileIxById {σ : Type} (files : List (WorkingDirectoryFileChange σ)) :
    String → Option Nat :=
  files.enum.foldl (fun m p => mapSet m p.2.id p.1) fun _ => none

/-- `WorkingDirectoryStatus`: the ordered file list and the tri-state
`includeAll` flag (`boolean | null`, here `Option Bool`).  The private
`fileIxById` map is always built from `files` in the constructor, so it is
represented as the derived function `WorkingDirectoryStatus.fileIxById`. -/
structure WorkingDirectoryStatus (σ : Type) where
  files : List (WorkingDirectoryFileChange σ)
  includeAll : Option Bool
  deriving DecidableEq

/-- The private id-to-index map of a constructed `WorkingDirectoryStatus`. -/
def WorkingDirectoryStatus.fileIxById {σ : Type}
    (s : WorkingDirectoryStatus σ) : String → Option Nat :=
  buildFileIxById s.files

/-- `getIncludeAllState`: `true` for an empty list, else `true` when every
file's selection type is `All`, else `false` when every file's selection type
is `None`, else `null`. -/
def getIncludeAllState {σ : Type} (ops : DiffSelectionOps σ)
    (files : List (WorkingDirectoryFileChange σ)) : Option Bool :=
  if files.length = 0 then some true
  else
    let allSelected := files.all fun f =>
      decide (ops.getSelectionType f.selection = DiffSelectionType.All)
    let noneSelected := files.all fun f =>
      decide (ops.getSelectionType f.selection = DiffSelectionType.None)
    if allSelected then some true
    else if noneSelected then some false
    else none

/-- `WorkingDirectoryStatus.fromFiles`: constructs a status with the given
files and the derived `includeAll` state. -/
def WorkingDirectoryStatus.fromFiles {σ : Type} (ops : DiffSelectionOps σ)
    (files : List (WorkingDirectoryFileChange σ)) : WorkingDirectoryStatus σ :=
  { files := files, includeAll := getIncludeAllState ops files }

/-- `withIncludeAllFiles`: maps every file through `withIncludeAll` and passes
the input boolean through as the new `includeAll`. -/
def WorkingDirectoryStatus.withIncludeAllFiles {σ : Type}
    (s : WorkingDirectoryStatus σ) (ops : DiffSelectionOps σ) (inc : Bool) :
    WorkingDirectoryStatus σ :=
  { files := s.files.map fun f => f.withIncludeAll ops inc
    includeAll := some inc }

/-- `findFileWithID`: map lookup, then `this.files[ix] || null`. -/
def WorkingDirectoryStatus.findFileWithID {σ : Type}
    (s : WorkingDirectoryStatus σ) (id : String) :
    Option (WorkingDirectoryFileChange σ) :=
  match s.fileIxById id with
  | some ix => s.files[ix]?
  | none => none

/-- `findFileIndexByID`: map lookup, `-1` when absent. -/
def WorkingDirectoryStatus.findFileIndexByID {σ : Type}
    (s : WorkingDirectoryStatus σ) (id : String) : Int :=
  match s.fileIxById id with
  | some ix => (ix : Int)
  | none => -1

/-- Reference characterisation of the constructor's map: the index (offset by
`n`) of the LAST file in the list whose id is `k`, or `none` when no file has
that id.  Later entries take precedence, mirroring sequential `Map.set`. -/
def lastIdxFrom {σ : Type} (k : String) :
    List (WorkingDirectoryFileChange σ) → Nat → Option Nat
  | [], _ => none
  | f :: rest, n =>
    match lastIdxFrom k rest (n + 1) with
    | some i => some i
    | none => if k = f.id then some n else none

/-- C1: the id stored on a constructed `FileChange` is
`kind + "+" + path + "+" + oldPath` when the status kind is Renamed or
Copied and `kind + "+" + path` for every other kind; in particular
`FileChange("b.txt", Renamed(oldPath = "a.txt")).id = "Renamed+b.txt+a.txt"`,
and two constructions with equal `(kind, path, oldPath)` yield equal ids. -/
theorem C1_fileChange_id :
    (∀ (path oldPath : String),
        (FileChange.mk path (.Renamed oldPath)).id
          = AppFileStatusKind.Renamed.str ++ "+" ++ path ++ "+" ++ oldPath
      ∧ (FileChange.mk path (.Copied oldPath)).id
          = AppFileStatusKind.Copied.str ++ "+" ++ path ++ "+" ++ oldPath)
  ∧ (∀ (path : String) (status : AppFileStatus),
      status.kind ≠ .Renamed → status.kind ≠ .Copied →
        (FileChange.mk path status).id = status.kind.str ++ "+" ++ path)
  ∧ (FileChange.mk "b.txt" (.Renamed "a.txt")).id = "Renamed+b.txt+a.txt"
  ∧ (∀ (p₁ p₂ : String) (s₁ s₂ : AppFileStatus),
      s₁.kind = s₂.kind → p₁ = p₂ → s₁.oldPathOpt = s₂.oldPathOpt →
        (FileChange.mk p₁ s₁).id = (FileChange.mk p₂ s₂).id) := by
  refine ⟨fun path oldPath => ⟨rfl, rfl⟩, ?_, by decide, ?_⟩
  · intro path status h₁ h₂
    cases status <;>
      simp_all [FileChange.id, fileChangeIdOf, AppFileStatus.kind]
  · intro p₁ p₂ s₁ s₂ hk hp ho
    cases s₁ <;> cases s₂ <;>
      simp_all [FileChange.id, fileChangeIdOf, AppFileStatus.kind,
        AppFileStatus.oldPathOpt]

/-- Witness for C1 at concrete inputs: a Modified status (neither Renamed nor
Copied) gets the two-part id. -/
theorem C1_fileChange_id_witness :
    (FileChange.mk "x.txt" AppFileStatus.Modified).id
      = AppFileStatusKind.Modified.str ++ "+" ++ "x.txt" :=
  C1_fileChange_id.2.1 "x.txt" AppFileStatus.Modified
    (by decide) (by decide)

/-- C3: `withIncludeAllFiles(b)` yields a status whose file list is exactly
the original files mapped through `withIncludeAll(b)` and whose `includeAll`
field is the input boolean itself (not re-derived from the new files). -/
theorem C3_withIncludeAllFiles_shape {σ : Type} (ops : DiffSelectionOps σ)
    (s : WorkingDirectoryStatus σ) (b : Bool) :
    (s.withIncludeAllFiles ops b).files
        = s.files.map (fun f => f.withIncludeAll ops b)
  ∧ (s.withIncludeAllFiles ops b).includeAll = some b :=
  ⟨rfl, rfl⟩

/-- C7: `withIncludeAll` and `withSelection` both return a value whose
`path`, `status` and `id` are unchanged; only the selection differs. -/
theorem C7_selection_frame {σ : Type} (ops : DiffSelectionOps σ)
    (f : WorkingDirectoryFileChange σ) (inc : Bool) (sel : σ) :
    ((f.withIncludeAll ops inc).path = f.path
      ∧ (f.withIncludeAll ops inc).status = f.status
      ∧ (f.withIncludeAll ops inc).id = f.id)
  ∧ ((f.withSelection sel).path = f.path
      ∧ (f.withSelection sel).status = f.status
      ∧ (f.withSelection sel).id = f.id) :=
  ⟨⟨rfl, rfl, rfl⟩, ⟨rfl, rfl, rfl⟩⟩

/-- C9: id derivation is not injective over distinct `(path, oldPath)` pairs:
`("a+b", oldPath "c")` and `("a", oldPath "b+c")` are distinct Renamed inputs
with the same id `"Renamed+a+b+c"`, and in a `WorkingDirectoryStatus`
containing both files the lookup resolves that id to the single (later)
index slot. -/
theorem C9_id_not_injective :
    ("a+b", "c") ≠ ("a", "b+c")
  ∧ (FileChange.mk "a+b" (.Renamed "c")).id = "Renamed+a+b+c"
  ∧ (FileChange.mk "a" (.Renamed "b+c")).id = "Renamed+a+b+c"
  ∧ (WorkingDirectoryStatus.mk
        [WorkingDirectoryFileChange.mk "a+b" (.Renamed "c")
            DiffSelectionType.All,
         WorkingDirectoryFileChange.mk "a" (.Renamed "b+c")
            DiffSelectionType.All]
        (some true)).findFileIndexByID "Renamed+a+b+c" = 1
  ∧ (WorkingDirectoryStatus.mk
        [WorkingDirectoryFileChange.mk "a+b" (.Renamed "c")
            DiffSelectionType.All,
         WorkingDirectoryFileChange.mk "a" (.Renamed "b+c")
            DiffSelectionType.All]
        (some true)).findFileWithID "Renamed+a+b+c"
      = some (WorkingDirectoryFileChange.mk "a" (.Renamed "b+c")
          DiffSelectionType.All) := by
  refine ⟨by decide, rfl, rfl, by decide, by decide⟩

/-- C10: the id of a `CommittedFileChange` does not incorporate the
commitish: any two commitish strings give the same id. -/
theorem C10_commitish_not_in_id (path : String) (status : AppFileStatus)
    (c₁ c₂ : String) :
    (CommittedFileChange.mk path status c₁).id
      = (CommittedFileChange.mk path status c₂).id :=
  rfl

theorem foldl_mapSet_lookup {σ : Type}
    (files : List (WorkingDirectoryFileChange σ)) (n : Nat)
    (m : String → Option Nat) (k : String) :
    ((List.enumFrom n files).foldl (fun m p => mapSet m p.2.id p.1) m) k
      = match lastIdxFrom k files n with
        | some i => some i
        | none => m k := by
  induction files generalizing n m with
  | nil => rfl
  | cons f rest ih =>
      show ((List.enumFrom (n + 1) rest).foldl
          (fun m p => mapSet m p.2.id p.1) (mapSet m f.id n)) k = _
      rw [ih]
      cases hrest : lastIdxFrom k rest (n + 1) with
      | some i => simp [lastIdxFrom, hrest]
      | none =>
          simp only [lastIdxFrom, hrest]
          by_cases hk : k = f.id <;> simp [mapSet, hk]

theorem buildFileIxById_eq_lastIdxFrom {σ : Type}
    (files : List (WorkingDirectoryFileChange σ)) (k : String) :
    buildFileIxById files k = lastIdxFrom k files 0 := by
  have h := foldl_mapSet_lookup files 0 (fun _ => none) k
  simp only [buildFileIxById, List.enum]
  rw [h]
  cases lastIdxFrom k files 0 <;> rfl

theorem lastIdxFrom_eq_none {σ : Type} (k : String)
    (files : List (WorkingDirectoryFileChange σ)) (n : Nat)
    (h : ∀ j (hj : j < files.length), files[j].id ≠ k) :
    lastIdxFrom k files n = none := by
  induction files generalizing n with
  | nil => rfl
  | cons f rest ih =>
      have hrest : ∀ j (hj : j < rest.length), rest[j].id ≠ k := by
        intro j hj
        have := h (j + 1) (by simpa using Nat.succ_lt_succ hj)
        simpa using this
      have hf : f.id ≠ k := by simpa using h 0 (by simp)
      have hk : ¬ (k = f.id) := fun hk => hf hk.symm
      simp [lastIdxFrom, ih _ hrest, hk]

theorem lastIdxFrom_eq_some_of_last {σ : Type} (k : String)
    (files : List (WorkingDirectoryFileChange σ)) (n i : Nat)
    (hi : i < files.length) (hk : files[i].id = k)
    (hlast : ∀ j (hj : j < files.length), i < j → files[j].id ≠ k) :
    lastIdxFrom k files n = some (n + i) := by
  induction files generalizing n i with
  | nil => exact absurd hi (by simp)
  | cons f rest ih =>
      cases i with
      | zero =>
          have hf : f.id = k := by simpa using hk
          have habsent : ∀ j (hj : j < rest.length), rest[j].id ≠ k := by
            intro j hj
            have := hlast (j + 1) (by simpa using Nat.succ_lt_succ hj)
              (Nat.succ_pos j)
            simpa using this
          simp [lastIdxFrom, lastIdxFrom_eq_none k rest (n + 1) habsent, hf]
      | succ i' =>
          have hi' : i' < rest.length := by simpa using hi
          have hk' : rest[i'].id = k := by simpa using hk
          have hlast' : ∀ j (hj : j < rest.length), i' < j → rest[j].id ≠ k := by
            intro j hj hij
            have := hlast (j + 1) (by simpa using Nat.succ_lt_succ hj)
              (Nat.succ_lt_succ hij)
            simpa using this
          have := ih i' hi' hk' hlast' (n := n + 1)
          simp [lastIdxFrom, this]
          omega

theorem lastIdxFrom_some_imp {σ : Type} (k : String)
    (files : List (WorkingDirectoryFileChange σ)) (n i : Nat)
    (h : lastIdxFrom k files n = some i) :
    ∃ j, ∃ hj : j < files.length, i = n + j ∧ files[j].id = k := by
  induction files generalizing n with
  | nil => exact absurd h (by simp [lastIdxFrom])
  | cons f rest ih =>
      rw [lastIdxFrom] at h
      cases hrest : lastIdxFrom k rest (n + 1) with
      | some i0 =>
          rw [hrest] at h
          obtain rfl : i0 = i := by simpa using h
          obtain ⟨j, hj, hij, hid⟩ := ih (n + 1) hrest
          exact ⟨j + 1, by simpa using Nat.succ_lt_succ hj,
            by omega, by simpa using hid⟩
      | none =>
          rw [hrest] at h
          by_cases hk : k = f.id
          · rw [if_pos hk] at h
            obtain rfl : n = i := by simpa using h
            exact ⟨0, by simp, by omega, by simpa using hk.symm⟩
          · rw [if_neg hk] at h
            exact absurd h (by simp)

theorem lastIdxFrom_none_imp {σ : Type} (k : String)
    (files : List (WorkingDirectoryFileChange σ)) (n : Nat)
    (h : lastIdxFrom k files n = none) :
    ∀ j (hj : j < files.length), files[j].id ≠ k := by
  induction files generalizing n with
  | nil => intro j hj; exact absurd hj (by simp)
  | cons f rest ih =>
      rw [lastIdxFrom] at h
      cases hrest : lastIdxFrom k rest (n + 1) with
      | some i0 => rw [hrest] at h; exact absurd h (by simp)
      | none =>
          rw [hrest] at h
          have hf : ¬ (k = f.id) := by
            intro hk
            rw [if_pos hk] at h
            exact absurd h (by simp)
          intro j hj
          cases j with
          | zero => simpa using fun hid => hf hid.symm
          | succ j' =>
              have hj' : j' < rest.length := by simpa using hj
              simpa using ih (n + 1) hrest j' hj'

/-- C5: the private id-to-index map of a constructed `WorkingDirectoryStatus`
is the inverse of `files` by id with last-write-wins on duplicates: when `i`
is the LAST index whose file has id `k`, both lookups resolve `k` to that file
and index (earlier duplicates are unreachable by lookup), while the file list
itself keeps every entry at its position; construction is total, so duplicate
ids never make it fail. -/
theorem C5_index_last_write_wins {σ : Type}
    (files : List (WorkingDirectoryFileChange σ)) (inc : Option Bool)
    (i : Nat) (k : String) (hi : i < files.length)
    (hk : files[i].id = k)
    (hlast : ∀ j (hj : j < files.length), i < j → files[j].id ≠ k) :
    (WorkingDirectoryStatus.mk files inc).fileIxById k = some i
  ∧ (WorkingDirectoryStatus.mk files inc).findFileIndexByID k = (i : Int)
  ∧ (WorkingDirectoryStatus.mk files inc).findFileWithID k = some files[i]
  ∧ (WorkingDirectoryStatus.mk files inc).files = files := by
  have hmap : (WorkingDirectoryStatus.mk files inc).fileIxById k = some i := by
    show buildFileIxById files k = some i
    rw [buildFileIxById_eq_lastIdxFrom]
    simpa using lastIdxFrom_eq_some_of_last k files 0 i hi hk hlast
  refine ⟨hmap, ?_, ?_, rfl⟩
  · unfold WorkingDirectoryStatus.findFileIndexByID
    rw [hmap]
  · unfold WorkingDirectoryStatus.findFileWithID
    rw [hmap]
    show files[i]? = some files[i]
    exact List.getElem?_eq_getElem hi

/-- Witness for C5: three files where indices 0 and 2 share id `"New+a"`;
both lookups resolve to the later file (index 2, selection `None`), not the
earlier one (index 0, selection `All`). -/
theorem C5_index_last_write_wins_witness :
    (WorkingDirectoryStatus.mk
        [WorkingDirectoryFileChange.mk "a" AppFileStatus.New
            DiffSelectionType.All,
         WorkingDirectoryFileChange.mk "b" AppFileStatus.New
            DiffSelectionType.All,
         WorkingDirectoryFileChange.mk "a" AppFileStatus.New
            DiffSelectionType.None]
        (some true)).findFileIndexByID "New+a" = (2 : Int)
  ∧ (WorkingDirectoryStatus.mk
        [WorkingDirectoryFileChange.mk "a" AppFileStatus.New
            DiffSelectionType.All,
         WorkingDirectoryFileChange.mk "b" AppFileStatus.New
            DiffSelectionType.All,
         WorkingDirectoryFileChange.mk "a" AppFileStatus.New
            DiffSelectionType.None]
        (some true)).findFileWithID "New+a"
      = some (WorkingDirectoryFileChange.mk "a" AppFileStatus.New
          DiffSelectionType.None) := by
  have h := C5_index_last_write_wins
    [WorkingDirectoryFileChange.mk "a" AppFileStatus.New DiffSelectionType.All,
     WorkingDirectoryFileChange.mk "b" AppFileStatus.New DiffSelectionType.All,
     WorkingDirectoryFileChange.mk "a" AppFileStatus.New DiffSelectionType.None]
    (some true) 2 "New+a" (by decide) (by decide) (by decide)
  exact ⟨h.2.1, h.2.2.1⟩

/-- C6: lookups are total and side-effect-free functions of the constructed
status: when no file has the id, `findFileWithID` returns the `none` sentinel
and `findFileIndexByID` returns `-1`; when some file has the id, a matching
file is returned together with its positional index. -/
theorem C6_lookup_total {σ : Type}
    (files : List (WorkingDirectoryFileChange σ)) (inc : Option Bool)
    (k : String) :
    ((∀ j (hj : j < files.length), files[j].id ≠ k) →
        (WorkingDirectoryStatus.mk files inc).findFileWithID k = none
      ∧ (WorkingDirectoryStatus.mk files inc).findFileIndexByID k = -1)
  ∧ ((∃ j, ∃ hj : j < files.length, files[j].id = k) →
      ∃ j, ∃ hj : j < files.length, files[j].id = k
        ∧ (WorkingDirectoryStatus.mk files inc).findFileWithID k
            = some files[j]
        ∧ (WorkingDirectoryStatus.mk files inc).findFileIndexByID k
            = (j : Int)) := by
  constructor
  · intro habsent
    have hmap : (WorkingDirectoryStatus.mk files inc).fileIxById k = none := by
      show buildFileIxById files k = none
      rw [buildFileIxById_eq_lastIdxFrom]
      exact lastIdxFrom_eq_none k files 0 habsent
    constructor
    · unfold WorkingDirectoryStatus.findFileWithID
      rw [hmap]
    · unfold WorkingDirectoryStatus.findFileIndexByID
      rw [hmap]
  · rintro ⟨j₀, hj₀, hid₀⟩
    cases hmap : buildFileIxById files k with
    | none =>
        rw [buildFileIxById_eq_lastIdxFrom] at hmap
        exact absurd hid₀ (lastIdxFrom_none_imp k files 0 hmap j₀ hj₀)
    | some i =>
        have hmap' : (WorkingDirectoryStatus.mk files inc).fileIxById k
            = some i := hmap
        rw [buildFileIxById_eq_lastIdxFrom] at hmap
        obtain ⟨j, hj, hij, hid⟩ := lastIdxFrom_some_imp k files 0 i hmap
        have hij' : i = j := by omega
        rw [hij'] at hmap'
        refine ⟨j, hj, hid, ?_, ?_⟩
        · unfold WorkingDirectoryStatus.findFileWithID
          rw [hmap']
          exact List.getElem?_eq_getElem hj
        · unfold WorkingDirectoryStatus.findFileIndexByID
          rw [hmap']

/-- Witness for C6: on a one-file status, looking up an id never inserted
yields `none` and `-1`; looking up the present id `"New+a"` yields the file
and its index. -/
theorem C6_lookup_total_witness :
    ((WorkingDirectoryStatus.mk
        [WorkingDirectoryFileChange.mk "a" AppFileStatus.New
            DiffSelectionType.All]
        (some true)).findFileWithID "zzz" = none
      ∧ (WorkingDirectoryStatus.mk
          [WorkingDirectoryFileChange.mk "a" AppFileStatus.New
              DiffSelectionType.All]
          (some true)).findFileIndexByID "zzz" = -1)
  ∧ (∃ j, ∃ hj : j <
        [WorkingDirectoryFileChange.mk "a" AppFileStatus.New
            DiffSelectionType.All].length,
      [WorkingDirectoryFileChange.mk "a" AppFileStatus.New
          DiffSelectionType.All][j].id = "New+a"
        ∧ (WorkingDirectoryStatus.mk
            [WorkingDirectoryFileChange.mk "a" AppFileStatus.New
                DiffSelectionType.All]
            (some true)).findFileWithID "New+a"
          = some [WorkingDirectoryFileChange.mk "a" AppFileStatus.New
              DiffSelectionType.All][j]
        ∧ (WorkingDirectoryStatus.mk
            [WorkingDirectoryFileChange.mk "a" AppFileStatus.New
                DiffSelectionType.All]
            (some true)).findFileIndexByID "New+a" = (j : Int)) :=
  ⟨(C6_lookup_total
      [WorkingDirectoryFileChange.mk "a" AppFileStatus.New
          DiffSelectionType.All]
      (some true) "zzz").1 (by decide),
   (C6_lookup_total
      [WorkingDirectoryFileChange.mk "a" AppFileStatus.New
          DiffSelectionType.All]
      (some true) "New+a").2 ⟨0, by decide, by decide⟩⟩

/-- C2: `getIncludeAllState` (stored unchanged by `fromFiles`) is `true` on
the empty list; on a non-empty list it is `true` iff every file's selection
type is `All`, `false` iff every file's selection type is `None`, and `null`
(`none`) exactly in the remaining mixed cases.  The code tests all-`All`
before all-`None`; for a non-empty list the two tests are mutually exclusive,
so the three-way outcome below characterises the result completely. -/
theorem C2_getIncludeAllState {σ : Type} (ops : DiffSelectionOps σ)
    (files : List (WorkingDirectoryFileChange σ)) :
    (files = [] → getIncludeAllState ops files = some true)
  ∧ (files ≠ [] →
      ((getIncludeAllState ops files = some true
          ↔ ∀ f ∈ files,
              ops.getSelectionType f.selection = DiffSelectionType.All)
      ∧ (getIncludeAllState ops files = some false
          ↔ ∀ f ∈ files,
              ops.getSelectionType f.selection = DiffSelectionType.None)
      ∧ (getIncludeAllState ops files = none
          ↔ ¬ (∀ f ∈ files,
                ops.getSelectionType f.selection = DiffSelectionType.All)
            ∧ ¬ (∀ f ∈ files,
                ops.getSelectionType f.selection = DiffSelectionType.None))))
  ∧ (WorkingDirectoryStatus.fromFiles ops files).includeAll
      = getIncludeAllState ops files := by
  refine ⟨fun h => by subst h; rfl, ?_, rfl⟩
  intro hne
  have hlen : ¬ files.length = 0 := by
    simpa [List.length_eq_zero] using hne
  by_cases hA : ∀ f ∈ files,
      ops.getSelectionType f.selection = DiffSelectionType.All
    <;> by_cases hN : ∀ f ∈ files,
        ops.getSelectionType f.selection = DiffSelectionType.None
  · cases files with
    | nil => exact absurd rfl hne
    | cons f fs =>
        have h1 := hA f (by simp)
        have h2 := hN f (by simp)
        rw [h1] at h2
        exact absurd h2 (by simp)
  · have bA : (files.all fun f =>
        decide (ops.getSelectionType f.selection = DiffSelectionType.All))
          = true := by
      simpa [List.all_eq_true] using hA
    have hres : getIncludeAllState ops files = some true := by
      simp [getIncludeAllState, hlen, bA]
    refine ⟨⟨fun _ => hA, fun _ => hres⟩,
      ⟨fun h => absurd (hres.symm.trans h) (by simp), fun h => absurd h hN⟩,
      ⟨fun h => absurd (hres.symm.trans h) (by simp),
       fun h => absurd hA h.1⟩⟩
  · have bA : (files.all fun f =>
        decide (ops.getSelectionType f.selection = DiffSelectionType.All))
          = false := by
      rw [Bool.eq_false_iff]
      intro hall
      exact hA (by simpa [List.all_eq_true] using hall)
    have bN : (files.all fun f =>
        decide (ops.getSelectionType f.selection = DiffSelectionType.None))
          = true := by
      simpa [List.all_eq_true] using hN
    have hres : getIncludeAllState ops files = some false := by
      simp [getIncludeAllState, hlen, bA, bN]
    refine ⟨⟨fun h => absurd (hres.symm.trans h) (by simp),
        fun h => absurd h hA⟩,
      ⟨fun _ => hN, fun _ => hres⟩,
      ⟨fun h => absurd (hres.symm.trans h) (by simp),
       fun h => absurd hN h.2⟩⟩
  · have bA : (files.all fun f =>
        decide (ops.getSelectionType f.selection = DiffSelectionType.All))
          = false := by
      rw [Bool.eq_false_iff]
      intro hall
      exact hA (by simpa [List.all_eq_true] using hall)
    have bN : (files.all fun f =>
        decide (ops.getSelectionType f.selection = DiffSelectionType.None))
          = false := by
      rw [Bool.eq_false_iff]
      intro hall
      exact hN (by simpa [List.all_eq_true] using hall)
    have hres : getIncludeAllState ops files = none := by
      simp [getIncludeAllState, hlen, bA, bN]
    refine ⟨⟨fun h => absurd (hres.symm.trans h) (by simp),
        fun h => absurd h hA⟩,
      ⟨fun h => absurd (hres.symm.trans h) (by simp),
       fun h => absurd h hN⟩,
      ⟨fun _ => ⟨hA, hN⟩, fun _ => hres⟩⟩

/-- Witness for C2: the empty list gives `some true`, and a mixed two-file
list (`All` then `None`) gives `none`. -/
theorem C2_getIncludeAllState_witness :
    getIncludeAllState simpleSelectionOps
        ([] : List (WorkingDirectoryFileChange DiffSelectionType)) = some true
  ∧ getIncludeAllState simpleSelectionOps
      [WorkingDirectoryFileChange.mk "a" AppFileStatus.New
          DiffSelectionType.All,
       WorkingDirectoryFileChange.mk "b" AppFileStatus.Modified
          DiffSelectionType.None] = none :=
  ⟨(C2_getIncludeAllState simpleSelectionOps []).1 rfl,
   ((C2_getIncludeAllState simpleSelectionOps
      [WorkingDirectoryFileChange.mk "a" AppFileStatus.New
          DiffSelectionType.All,
       WorkingDirectoryFileChange.mk "b" AppFileStatus.Modified
          DiffSelectionType.None]).2.1 (by simp)).2.2.mpr
    ⟨by decide, by decide⟩⟩

/-- C4: under the collaborator contract that `withSelectAll` yields a
fully-selected value, `withIncludeAllFiles(true)` on a non-empty status
yields `includeAll = true` and every file reporting selection type `All`. -/
theorem C4_withIncludeAllFiles_true {σ : Type} (ops : DiffSelectionOps σ)
    (hAll : ∀ s, ops.getSelectionType (ops.withSelectAll s)
        = DiffSelectionType.All)
    (st : WorkingDirectoryStatus σ) (_hne : st.files ≠ []) :
    (st.withIncludeAllFiles ops true).includeAll = some true
  ∧ ∀ f ∈ (st.withIncludeAllFiles ops true).files,
      ops.getSelectionType f.selection = DiffSelectionType.All := by
  refine ⟨rfl, ?_⟩
  intro f hf
  simp only [WorkingDirectoryStatus.withIncludeAllFiles, List.mem_map] at hf
  obtain ⟨g, hg, rfl⟩ := hf
  simp [WorkingDirectoryFileChange.withIncludeAll,
    WorkingDirectoryFileChange.withSelection, hAll]

/-- Witness for C4: a one-file status with everything deselected, flipped to
all-selected through the concrete collaborator. -/
theorem C4_withIncludeAllFiles_true_witness :
    ((WorkingDirectoryStatus.mk
        [WorkingDirectoryFileChange.mk "a" AppFileStatus.Modified
            DiffSelectionType.None]
        (some false)).withIncludeAllFiles simpleSelectionOps true).includeAll
      = some true
  ∧ ∀ f ∈ ((WorkingDirectoryStatus.mk
        [WorkingDirectoryFileChange.mk "a" AppFileStatus.Modified
            DiffSelectionType.None]
        (some false)).withIncludeAllFiles simpleSelectionOps true).files,
      simpleSelectionOps.getSelectionType f.selection
        = DiffSelectionType.All :=
  C4_withIncludeAllFiles_true simpleSelectionOps (fun _ => rfl)
    (WorkingDirectoryStatus.mk
      [WorkingDirectoryFileChange.mk "a" AppFileStatus.Modified
          DiffSelectionType.None]
      (some false))
    (by simp)

/-- C8: under the collaborator contract (`withSelectAll` yields type `All`,
`withSelectNone` yields type `None`), the round trip
`withIncludeAllFiles(x)` then `withIncludeAllFiles(!x)` ends with every
file's selection type `None` whenever `!x` is false, and applying
`withIncludeAllFiles` with the same boolean twice yields the same per-file
selection states as applying it once. -/
theorem C8_roundtrip_idempotent {σ : Type} (ops : DiffSelectionOps σ)
    (hAll : ∀ s, ops.getSelectionType (ops.withSelectAll s)
        = DiffSelectionType.All)
    (hNone : ∀ s, ops.getSelectionType (ops.withSelectNone s)
        = DiffSelectionType.None)
    (st : WorkingDirectoryStatus σ) (x : Bool) :
    ((!x) = false →
      ∀ f ∈ ((st.withIncludeAllFiles ops x).withIncludeAllFiles
          ops (!x)).files,
        ops.getSelectionType f.selection = DiffSelectionType.None)
  ∧ (((st.withIncludeAllFiles ops x).withIncludeAllFiles ops x).files.map
        (fun f => ops.getSelectionType f.selection)
      = (st.withIncludeAllFiles ops x).files.map
        (fun f => ops.getSelectionType f.selection)) := by
  constructor
  · intro hx f hf
    rw [hx] at hf
    simp only [WorkingDirectoryStatus.withIncludeAllFiles,
      List.mem_map] at hf
    obtain ⟨g, hg, rfl⟩ := hf
    simp [WorkingDirectoryFileChange.withIncludeAll,
      WorkingDirectoryFileChange.withSelection, hNone]
  · simp only [WorkingDirectoryStatus.withIncludeAllFiles, List.map_map]
    apply List.map_congr_left
    intro g hg
    cases x <;>
      simp [WorkingDirectoryFileChange.withIncludeAll,
        WorkingDirectoryFileChange.withSelection, hAll, hNone]

/-- Witness for C8: a one-file partially-selected status, with `x = true`;
the round trip ends all-deselected and the double application agrees with
the single one. -/
theorem C8_roundtrip_idempotent_witness :
    (∀ f ∈ (((WorkingDirectoryStatus.mk
          [WorkingDirectoryFileChange.mk "a" AppFileStatus.Modified
              DiffSelectionType.Partial]
          none).withIncludeAllFiles simpleSelectionOps
            true).withIncludeAllFiles simpleSelectionOps (!true)).files,
        simpleSelectionOps.getSelectionType f.selection
          = DiffSelectionType.None)
  ∧ ((((WorkingDirectoryStatus.mk
          [WorkingDirectoryFileChange.mk "a" AppFileStatus.Modified
              DiffSelectionType.Partial]
          none).withIncludeAllFiles simpleSelectionOps
            true).withIncludeAllFiles simpleSelectionOps true).files.map
        (fun f => simpleSelectionOps.getSelectionType f.selection)
      = ((WorkingDirectoryStatus.mk
          [WorkingDirectoryFileChange.mk "a" AppFileStatus.Modified
              DiffSelectionType.Partial]
          none).withIncludeAllFiles simpleSelectionOps true).files.map
        (fun f => simpleSelectionOps.getSelectionType f.selection)) := by
  have h := C8_roundtrip_idempotent simpleSelectionOps (fun _ => rfl)
    (fun _ => rfl)
    (WorkingDirectoryStatus.mk
      [WorkingDirectoryFileChange.mk "a" AppFileStatus.Modified
          DiffSelectionType.Partial]
      none) true
  exact ⟨h.1 rfl, h.2⟩
